import Mathlib

/-!
Verification of the particle-tracking example script
(`examples/notebooks/prt.py`): a MODFLOW 6 PRT / MODPATH 7 backward
particle-tracking workflow on a quad-refined grid.  The script's core
responsibilities are embedded below: reversing a flow-field time series,
generating particle release points, normalizing trajectory records from
the two engines, and delineating the capture zone by filtering the
reconciled records.
-/

namespace Prt

/-! ## Flow-field time series and reversal

The script delegates file reversal to the external `flopy` binary-file
utilities (`reverse_budgetfile` / `reverse_headfile` call
`bf.CellBudgetFile(...).reverse` and `bf.HeadFile(...).reverse`); the
reversal algorithm itself is not in this repository, so it is modelled
from the spec. -/

/-- One frame of a flow-field time series: per-cell head values,
per-cell-face flux values, and a time span `[tstart, tend)`. -/
structure Frame where
  head : List ℚ
  flux : List ℚ
  tstart : ℚ
  tend : ℚ
deriving DecidableEq, Repr

/-- Total duration of a series: the end time of its last frame
(0 for the empty series). -/
def totalTime (s : List Frame) : ℚ :=
  (s.getLast?.map Frame.tend).getD 0

/-- A valid series: non-empty, cumulative time starting at 0,
contiguous frame spans, and strictly increasing time within each
frame. -/
def validSeries (s : List Frame) : Prop :=
  s ≠ [] ∧ (∀ f ∈ s.take 1, f.tstart = 0) ∧
    List.Chain' (fun a b => a.tend = b.tstart) s ∧
    ∀ f ∈ s, f.tstart < f.tend

/-- Modelled from the spec: the per-frame transform used by the external
`flopy` reversal (missing from this repository) — field values are
copied unchanged, and the frame's time span is remapped to
`[T - tend, T - tstart)` where `T` is the total duration. -/
def revFrame (T : ℚ) (f : Frame) : Frame :=
  { f with tstart := T - f.tend, tend := T - f.tstart }

/-- Modelled from the spec: the series reversal performed by the
external `flopy` `HeadFile.reverse` / `CellBudgetFile.reverse` (missing
from this repository) — frame order is reversed and each frame's time
span is rebased against the total duration; head and flux values are
copied unchanged. -/
def reverse (s : List Frame) : List Frame :=
  s.reverse.map (revFrame (totalTime s))

theorem revFrame_revFrame (T : ℚ) (f : Frame) :
    revFrame T (revFrame T f) = f := by
  cases f
  simp [revFrame]

theorem totalTime_reverse (s : List Frame) (hs : validSeries s) :
    totalTime (reverse s) = totalTime s := by
  obtain ⟨hne, h0, _, _⟩ := hs
  obtain ⟨f, t, rfl⟩ := List.exists_cons_of_ne_nil hne
  have hf : f.tstart = 0 := h0 f (by simp)
  simp [reverse, totalTime, List.getLast?_map, List.getLast?_reverse, revFrame, hf]

theorem reverse_get (s : List Frame) (k : Nat) (hk : k < (reverse s).length)
    (hk' : s.length - 1 - k < s.length) :
    (reverse s).get ⟨k, hk⟩
      = revFrame (totalTime s) (s.get ⟨s.length - 1 - k, hk'⟩) := by
  simp only [reverse, List.get_eq_getElem, List.getElem_map, List.getElem_reverse]

theorem totalTime_eq_last (s : List Frame) (hne : s ≠ [])
    (h : s.length - 1 < s.length) :
    totalTime s = (s.get ⟨s.length - 1, h⟩).tend := by
  rw [totalTime, List.getLast?_eq_getLast s hne, Option.map_some', Option.getD_some,
    List.getLast_eq_getElem, List.get_eq_getElem]

/-- A sample two-frame series used to witness the reversal theorems. -/
def sampleSeries : List Frame :=
  [⟨[320, 330], [5, -7], 0, 3⟩, ⟨[321, 331], [6, -8], 3, 7⟩]

theorem sampleSeries_valid : validSeries sampleSeries := by
  refine ⟨by decide, by decide, ?_, by decide⟩
  simp only [sampleSeries, List.chain'_cons, List.chain'_singleton, and_true]

/-- C1: for every valid flow-field time series, the reversal produces a
series of the same length whose frame `k` is original frame
`n - 1 - k` with head and flux copied unchanged (no sign change), whose
new start time is the total duration minus that original frame's end
time, whose span length is preserved, and whose first frame starts at
time 0. -/
theorem reverse_spec (s : List Frame) (hs : validSeries s) :
    (reverse s).length = s.length ∧
    (∀ f ∈ (reverse s).take 1, f.tstart = 0) ∧
    ∀ k j (hk : k < (reverse s).length) (hj : j < s.length),
      j = s.length - 1 - k →
        ((reverse s).get ⟨k, hk⟩).head = (s.get ⟨j, hj⟩).head ∧
        ((reverse s).get ⟨k, hk⟩).flux = (s.get ⟨j, hj⟩).flux ∧
        ((reverse s).get ⟨k, hk⟩).tstart = totalTime s - (s.get ⟨j, hj⟩).tend ∧
        ((reverse s).get ⟨k, hk⟩).tend = totalTime s - (s.get ⟨j, hj⟩).tstart ∧
        ((reverse s).get ⟨k, hk⟩).tend - ((reverse s).get ⟨k, hk⟩).tstart
          = (s.get ⟨j, hj⟩).tend - (s.get ⟨j, hj⟩).tstart := by
  obtain ⟨hne, h0, _, _⟩ := hs
  have hlen : (reverse s).length = s.length := by simp [reverse]
  refine ⟨hlen, ?_, ?_⟩
  · intro f hf
    simp only [List.take_one, Option.mem_toList, Option.mem_def,
      List.head?_eq_getElem?, List.getElem?_eq_some] at hf
    obtain ⟨hpos, hf0⟩ := hf
    have hlast : s.length - 1 - 0 < s.length := by
      have := List.length_pos.mpr hne; omega
    have := reverse_get s 0 hpos hlast
    rw [List.get_eq_getElem] at this
    rw [← hf0, this,
      totalTime_eq_last s hne (by have := List.length_pos.mpr hne; omega)]
    simp [revFrame]
  · intro k j hk hj hkj
    subst hkj
    rw [reverse_get s k hk hj]
    simp [revFrame]

/-- C2: applying the reversal twice restores a valid non-empty series
exactly, frame content and frame order identical to the input. -/
theorem reverse_reverse_eq (s : List Frame) (hs : validSeries s) :
    reverse (reverse s) = s := by
  have hT : totalTime (reverse s) = totalTime s := totalTime_reverse s hs
  conv_lhs => rw [reverse, hT, reverse]
  rw [← List.map_reverse, List.reverse_reverse, List.map_map]
  have hgg : revFrame (totalTime s) ∘ revFrame (totalTime s) = id :=
    funext (revFrame_revFrame _)
  rw [hgg, List.map_id]

/-- Witness for C1: the reversal spec holds at the concrete sample
series, evaluated at frame index 0. -/
theorem reverse_spec_witness :
    validSeries sampleSeries ∧
      ((reverse sampleSeries).get ⟨0, by decide⟩).head
        = (sampleSeries.get ⟨1, by decide⟩).head ∧
      ((reverse sampleSeries).get ⟨0, by decide⟩).tstart
        = totalTime sampleSeries - (sampleSeries.get ⟨1, by decide⟩).tend := by
  refine ⟨sampleSeries_valid, ?_, ?_⟩
  · exact ((reverse_spec sampleSeries sampleSeries_valid).2.2 0 1 (by decide)
      (by decide) (by decide)).1
  · exact ((reverse_spec sampleSeries sampleSeries_valid).2.2 0 1 (by decide)
      (by decide) (by decide)).2.2.1

/-- Witness for C2: the double reversal restores the concrete sample
series. -/
theorem reverse_reverse_eq_witness :
    validSeries sampleSeries ∧ reverse (reverse sampleSeries) = sampleSeries :=
  ⟨sampleSeries_valid, reverse_reverse_eq sampleSeries sampleSeries_valid⟩

/-! ## Trajectory records from the two engines

`get_mf6_pathlines` loads the PRT track CSV; `get_mp7_pathlines` loads
the MODPATH 7 pathline file.  Each is embedded as a transformation on
lists of rows. -/

/-- One row of the MODFLOW 6 PRT pathline table: release package number
`iprp` (particle group), release point number `irpt` (particle id),
layer `ilay`, reporting-reason code `ireason`, and time `t`.  PRT
writes these 1-based. -/
structure Mf6Row where
  iprp : Nat
  irpt : Nat
  ilay : Nat
  ireason : Nat
  t : ℚ
deriving DecidableEq, Repr

/-- One raw row of the MODPATH 7 pathline table as loaded by flopy,
with 0-based indices, before the script's normalization. -/
structure Mp7Row where
  k : Nat
  node : Nat
  particleid : Nat
  particlegroup : Nat
  particleidloc : Nat
  sequencenumber : Nat
  time : ℚ
deriving DecidableEq, Repr

/-- `get_mp7_pathlines`: `for n in kijnames: mp7pl[n] += 1` — every
index column (`k`, `node`, `particleid`, `particlegroup`,
`particleidloc`, `sequencenumber`) is converted from flopy's 0-based
convention to the 1-based convention PRT uses. -/
def mp7Normalize (r : Mp7Row) : Mp7Row :=
  { r with
    k := r.k + 1, node := r.node + 1, particleid := r.particleid + 1,
    particlegroup := r.particlegroup + 1,
    particleidloc := r.particleidloc + 1,
    sequencenumber := r.sequencenumber + 1 }

/-- The index-conversion pass of `get_mp7_pathlines`, applied to every
row of the table. -/
def mp7NormalizeAll (rows : List Mp7Row) : List Mp7Row :=
  rows.map mp7Normalize

/-- `get_mf6_pathlines` applies no index conversion: MF6 PRT indices
are used as-is. -/
def mf6IndexPass (rows : List Mf6Row) : List Mf6Row := rows

/-- C5: after normalization every MP7 index column equals the raw
0-based value plus one, while MF6 rows pass through unchanged. -/
theorem index_normalization (rows7 : List Mp7Row) (rows6 : List Mf6Row) :
    (∀ i (h : i < rows7.length),
      ((mp7NormalizeAll rows7).get ⟨i, by simpa [mp7NormalizeAll] using h⟩).k
          = (rows7.get ⟨i, h⟩).k + 1 ∧
      ((mp7NormalizeAll rows7).get ⟨i, by simpa [mp7NormalizeAll] using h⟩).node
          = (rows7.get ⟨i, h⟩).node + 1 ∧
      ((mp7NormalizeAll rows7).get
          ⟨i, by simpa [mp7NormalizeAll] using h⟩).particleid
          = (rows7.get ⟨i, h⟩).particleid + 1 ∧
      ((mp7NormalizeAll rows7).get
          ⟨i, by simpa [mp7NormalizeAll] using h⟩).particlegroup
          = (rows7.get ⟨i, h⟩).particlegroup + 1 ∧
      ((mp7NormalizeAll rows7).get
          ⟨i, by simpa [mp7NormalizeAll] using h⟩).particleidloc
          = (rows7.get ⟨i, h⟩).particleidloc + 1 ∧
      ((mp7NormalizeAll rows7).get
          ⟨i, by simpa [mp7NormalizeAll] using h⟩).sequencenumber
          = (rows7.get ⟨i, h⟩).sequencenumber + 1 ∧
      ((mp7NormalizeAll rows7).get ⟨i, by simpa [mp7NormalizeAll] using h⟩).time
          = (rows7.get ⟨i, h⟩).time) ∧
    mf6IndexPass rows6 = rows6 := by
  refine ⟨?_, rfl⟩
  intro i h
  simp [mp7NormalizeAll, mp7Normalize, List.get_eq_getElem, List.getElem_map]

/-- Witness for C5: normalization at a concrete one-row table. -/
theorem index_normalization_witness :
    0 < ([⟨0, 4, 2, 0, 1, 3, (5 : ℚ)⟩] : List Mp7Row).length ∧
      ((mp7NormalizeAll [⟨0, 4, 2, 0, 1, 3, (5 : ℚ)⟩]).get ⟨0, by decide⟩).k
        = (([⟨0, 4, 2, 0, 1, 3, (5 : ℚ)⟩] : List Mp7Row).get ⟨0, by decide⟩).k
            + 1 :=
  ⟨by decide,
    ((index_normalization [⟨0, 4, 2, 0, 1, 3, (5 : ℚ)⟩] []).1 0 (by decide)).1⟩

/-! ## Per-trajectory timing (pandas `groupby(...).t.min()` / `.max()`) -/

/-- Minimum of a list of times, as pandas `Series.min` computes it
(`none` on an empty group). -/
def listMin : List ℚ → Option ℚ
  | [] => none
  | t :: ts => some ((listMin ts).elim t (min t))

/-- Maximum of a list of times, as pandas `Series.max` computes it. -/
def listMax : List ℚ → Option ℚ
  | [] => none
  | t :: ts => some ((listMax ts).elim t (max t))

theorem listMin_eq_none (ts : List ℚ) : listMin ts = none ↔ ts = [] := by
  cases ts <;> simp [listMin]

theorem listMax_eq_none (ts : List ℚ) : listMax ts = none ↔ ts = [] := by
  cases ts <;> simp [listMax]

theorem listMin_spec (ts : List ℚ) (m : ℚ) (h : listMin ts = some m) :
    m ∈ ts ∧ ∀ t ∈ ts, m ≤ t := by
  induction ts generalizing m with
  | nil => simp [listMin] at h
  | cons a ts ih =>
    cases hts : listMin ts with
    | none =>
      have : ts = [] := (listMin_eq_none ts).mp hts
      subst this
      simp [listMin] at h
      subst h
      simp
    | some m' =>
      simp [listMin, hts] at h
      obtain ⟨hmem, hle⟩ := ih m' hts
      subst h
      rcases le_total a m' with hc | hc
      · simp [min_eq_left hc]
        exact fun t ht => le_trans hc (hle t ht)
      · rw [min_eq_right hc]
        refine ⟨List.mem_cons_of_mem a hmem, fun t ht => ?_⟩
        rcases List.mem_cons.mp ht with rfl | ht
        · exact hc
        · exact hle t ht

theorem listMax_spec (ts : List ℚ) (m : ℚ) (h : listMax ts = some m) :
    m ∈ ts ∧ ∀ t ∈ ts, t ≤ m := by
  induction ts generalizing m with
  | nil => simp [listMax] at h
  | cons a ts ih =>
    cases hts : listMax ts with
    | none =>
      have : ts = [] := (listMax_eq_none ts).mp hts
      subst this
      simp [listMax] at h
      subst h
      simp
    | some m' =>
      simp [listMax, hts] at h
      obtain ⟨hmem, hle⟩ := ih m' hts
      subst h
      rcases le_total m' a with hc | hc
      · simp [max_eq_left hc]
        exact fun t ht => le_trans (hle t ht) hc
      · rw [max_eq_right hc]
        refine ⟨List.mem_cons_of_mem a hmem, fun t ht => ?_⟩
        rcases List.mem_cons.mp ht with rfl | ht
        · exact hc
        · exact hle t ht

/-- The trajectory of key `(g, p)`: the MF6 rows grouped under
`groupby(level=["iprp", "irpt"])`. -/
def mf6Traj (rows : List Mf6Row) (g p : Nat) : List Mf6Row :=
  rows.filter fun r => r.iprp == g && r.irpt == p

/-- `get_mf6_pathlines`: `t0 = groupby(["iprp","irpt"]).apply(lambda x:
x.t.min())` joined back onto each row of the group. -/
def mf6T0 (rows : List Mf6Row) (r : Mf6Row) : Option ℚ :=
  listMin ((mf6Traj rows r.iprp r.irpt).map Mf6Row.t)

/-- `get_mf6_pathlines`: `tt = ... x.t.max()` joined back onto each row
of the group. -/
def mf6TT (rows : List Mf6Row) (r : Mf6Row) : Option ℚ :=
  listMax ((mf6Traj rows r.iprp r.irpt).map Mf6Row.t)

/-- The trajectory of key `(g, p)` on the MP7 side:
`groupby(level=["particlegroup", "sequencenumber"])`. -/
def mp7Traj (rows : List Mp7Row) (g p : Nat) : List Mp7Row :=
  rows.filter fun r => r.particlegroup == g && r.sequencenumber == p

/-- `get_mp7_pathlines`: `t0 = ... x.time.min()` joined back onto each
row of the group. -/
def mp7T0 (rows : List Mp7Row) (r : Mp7Row) : Option ℚ :=
  listMin ((mp7Traj rows r.particlegroup r.sequencenumber).map Mp7Row.time)

/-- `get_mp7_pathlines`: `tt = ... x.time.max()` joined back onto each
row of the group. -/
def mp7TT (rows : List Mp7Row) (r : Mp7Row) : Option ℚ :=
  listMax ((mp7Traj rows r.particlegroup r.sequencenumber).map Mp7Row.time)

theorem mem_mf6Traj_self (rows : List Mf6Row) (r : Mf6Row) (hr : r ∈ rows) :
    r ∈ mf6Traj rows r.iprp r.irpt := by
  simp [mf6Traj, List.mem_filter, hr]

theorem mem_mp7Traj_self (rows : List Mp7Row) (q : Mp7Row) (hq : q ∈ rows) :
    q ∈ mp7Traj rows q.particlegroup q.sequencenumber := by
  simp [mp7Traj, List.mem_filter, hq]

/-- C4: for every row of either engine's table, the release time
column is the minimum of its trajectory's times (it belongs to the
trajectory and bounds it below) and the termination time column is the
maximum (it belongs and bounds above). -/
theorem release_termination_times (rows6 : List Mf6Row) (rows7 : List Mp7Row)
    (r : Mf6Row) (q : Mp7Row) (hr : r ∈ rows6) (hq : q ∈ rows7) :
    (∃ m, mf6T0 rows6 r = some m ∧
      m ∈ (mf6Traj rows6 r.iprp r.irpt).map Mf6Row.t ∧
      ∀ t ∈ (mf6Traj rows6 r.iprp r.irpt).map Mf6Row.t, m ≤ t) ∧
    (∃ m, mf6TT rows6 r = some m ∧
      m ∈ (mf6Traj rows6 r.iprp r.irpt).map Mf6Row.t ∧
      ∀ t ∈ (mf6Traj rows6 r.iprp r.irpt).map Mf6Row.t, t ≤ m) ∧
    (∃ m, mp7T0 rows7 q = some m ∧
      m ∈ (mp7Traj rows7 q.particlegroup q.sequencenumber).map Mp7Row.time ∧
      ∀ t ∈ (mp7Traj rows7 q.particlegroup q.sequencenumber).map Mp7Row.time,
        m ≤ t) ∧
    (∃ m, mp7TT rows7 q = some m ∧
      m ∈ (mp7Traj rows7 q.particlegroup q.sequencenumber).map Mp7Row.time ∧
      ∀ t ∈ (mp7Traj rows7 q.particlegroup q.sequencenumber).map Mp7Row.time,
        t ≤ m) := by
  have h6 : r.t ∈ (mf6Traj rows6 r.iprp r.irpt).map Mf6Row.t :=
    List.mem_map_of_mem _ (mem_mf6Traj_self rows6 r hr)
  have h7 : q.time
      ∈ (mp7Traj rows7 q.particlegroup q.sequencenumber).map Mp7Row.time :=
    List.mem_map_of_mem _ (mem_mp7Traj_self rows7 q hq)
  have hne6 : (mf6Traj rows6 r.iprp r.irpt).map Mf6Row.t ≠ [] :=
    List.ne_nil_of_mem h6
  have hne7 :
      (mp7Traj rows7 q.particlegroup q.sequencenumber).map Mp7Row.time ≠ [] :=
    List.ne_nil_of_mem h7
  refine ⟨?_, ?_, ?_, ?_⟩
  · cases hm : mf6T0 rows6 r with
    | none => exact absurd ((listMin_eq_none _).mp hm) hne6
    | some m => exact ⟨m, rfl, listMin_spec _ m hm⟩
  · cases hm : mf6TT rows6 r with
    | none => exact absurd ((listMax_eq_none _).mp hm) hne6
    | some m => exact ⟨m, rfl, listMax_spec _ m hm⟩
  · cases hm : mp7T0 rows7 q with
    | none => exact absurd ((listMin_eq_none _).mp hm) hne7
    | some m => exact ⟨m, rfl, listMin_spec _ m hm⟩
  · cases hm : mp7TT rows7 q with
    | none => exact absurd ((listMax_eq_none _).mp hm) hne7
    | some m => exact ⟨m, rfl, listMax_spec _ m hm⟩

/-- Witness for C4: the timing columns at a concrete two-row table per
engine. -/
theorem release_termination_times_witness :
    (⟨1, 1, 1, 0, (0 : ℚ)⟩ : Mf6Row)
        ∈ ([⟨1, 1, 1, 0, 0⟩, ⟨1, 1, 2, 3, 900⟩] : List Mf6Row) ∧
    (⟨0, 1, 1, 1, 1, 1, (0 : ℚ)⟩ : Mp7Row)
        ∈ ([⟨0, 1, 1, 1, 1, 1, 0⟩, ⟨1, 2, 1, 1, 1, 1, 905⟩] : List Mp7Row) ∧
    mf6T0 [⟨1, 1, 1, 0, 0⟩, ⟨1, 1, 2, 3, 900⟩] ⟨1, 1, 1, 0, 0⟩ = some 0 ∧
    ∃ m, mf6TT [⟨1, 1, 1, 0, 0⟩, ⟨1, 1, 2, 3, 900⟩] ⟨1, 1, 1, 0, 0⟩ = some m ∧
      m ∈ (mf6Traj [⟨1, 1, 1, 0, 0⟩, ⟨1, 1, 2, 3, 900⟩] 1 1).map Mf6Row.t ∧
      ∀ t ∈ (mf6Traj [⟨1, 1, 1, 0, 0⟩, ⟨1, 1, 2, 3, 900⟩] 1 1).map Mf6Row.t,
        t ≤ m := by
  have h := release_termination_times
    [⟨1, 1, 1, 0, 0⟩, ⟨1, 1, 2, 3, 900⟩]
    [⟨0, 1, 1, 1, 1, 1, 0⟩, ⟨1, 2, 1, 1, 1, 1, 905⟩]
    ⟨1, 1, 1, 0, 0⟩ ⟨0, 1, 1, 1, 1, 1, 0⟩ (by decide) (by decide)
  refine ⟨by decide, by decide, by decide, h.2.1⟩

/-! ## Layer-to-color classification -/

/-- `get_mf6_pathlines`: the marker-color lambda, `"green" if row.ilay
== 1 else "yellow" if row.ilay == 2 else "red"`. -/
def mf6MarkerColor (r : Mf6Row) : String :=
  if r.ilay = 1 then "green" else if r.ilay = 2 then "yellow" else "red"

/-- `get_mp7_pathlines`: the marker-color lambda, `"green" if row.k ==
1 else "yellow" if row.k == 2 else "red"` (applied after index
normalization, so `k` is 1-based). -/
def mp7MarkerColor (r : Mp7Row) : String :=
  if r.k = 1 then "green" else if r.k = 2 then "yellow" else "red"

/-- The ordinal-to-category map both per-row lambdas implement. -/
def layerColor (l : Nat) : String :=
  if l = 1 then "green" else if l = 2 then "yellow" else "red"

/-- C9: both engines' marker colors are the same total function of the
(1-based) layer index alone — layer 1 to one class, layer 2 to a
second, every other layer to a third, with the three classes
distinct. -/
theorem marker_color_is_layer_function :
    (∀ r : Mf6Row, mf6MarkerColor r = layerColor r.ilay) ∧
    (∀ r : Mp7Row, mp7MarkerColor r = layerColor r.k) ∧
    layerColor 1 = "green" ∧ layerColor 2 = "yellow" ∧
    (∀ l, l ≠ 1 → l ≠ 2 → layerColor l = "red") ∧
    layerColor 1 ≠ layerColor 2 ∧ layerColor 1 ≠ layerColor 3 ∧
    layerColor 2 ≠ layerColor 3 := by
  refine ⟨fun r => rfl, fun r => rfl, rfl, rfl, ?_, by decide, by decide,
    by decide⟩
  intro l h1 h2
  simp [layerColor, h1, h2]

/-- Witness for C9: the third class at a concrete layer index. -/
theorem marker_color_is_layer_function_witness :
    (3 : Nat) ≠ 1 ∧ (3 : Nat) ≠ 2 ∧ layerColor 3 = "red" :=
  ⟨by decide, by decide,
    marker_color_is_layer_function.2.2.2.2.1 3 (by decide) (by decide)⟩

/-! ## Capture-zone delineation -/

/-- `get_mf6_pathlines`: the subproblem label lambda, `"A" if row.iprp
== 1 else "B"`. -/
def subprobOf (iprp : Nat) : String := if iprp = 1 then "A" else "B"

/-- `plot_results`: `mf6ep = mf6pl[mf6pl.ireason == 3]` — reporting
reason code 3 marks the termination event; the spec calls this the
boundary-exit code. -/
def boundaryExitCode : Nat := 3

/-- The delineation filter: retain only records whose termination
reason equals the boundary-exit code. -/
def captureRecords (rows : List Mf6Row) : List Mf6Row :=
  rows.filter fun r => r.ireason == boundaryExitCode

/-- The per-group partition of the retained records, e.g.
`mf6ep[mf6ep.subprob == "B"]` in `plot_results`. -/
def captureGroup (rows : List Mf6Row) (g : String) : List Mf6Row :=
  (captureRecords rows).filter fun r => subprobOf r.iprp == g

/-- C3: capture-zone delineation is exactly a filter — a record is
retained iff its termination-reason code equals the boundary-exit code
(all other reason codes are excluded), and the retained records are
partitioned by originating group. -/
theorem capture_zone_filter (rows : List Mf6Row) (g : String) (r : Mf6Row) :
    (r ∈ captureRecords rows ↔ r ∈ rows ∧ r.ireason = boundaryExitCode) ∧
    (r ∈ captureGroup rows g ↔
      r ∈ rows ∧ r.ireason = boundaryExitCode ∧ subprobOf r.iprp = g) := by
  simp [captureRecords, captureGroup, List.mem_filter, and_assoc]
  tauto

/-! ## Particle release data (`get_particle_data`) -/

/-- The 16 explicit (local x, local y, local z) release coordinates of
part A, in source order: four points on each of the four vertical faces
of the well cell, at mid depth. -/
def pcoord : List (ℚ × ℚ × ℚ) :=
  [(0, 0.125, 0.5), (0, 0.375, 0.5), (0, 0.625, 0.5), (0, 0.875, 0.5),
   (1, 0.125, 0.5), (1, 0.375, 0.5), (1, 0.625, 0.5), (1, 0.875, 0.5),
   (0.125, 0, 0.5), (0.375, 0, 0.5), (0.625, 0, 0.5), (0.875, 0, 0.5),
   (0.125, 1, 0.5), (0.375, 1, 0.5), (0.625, 1, 0.5), (0.875, 1, 0.5)]

/-- The per-face subdivision counts of part B's `FaceDataType`
template: `verticaldivisions`/`horizontaldivisions` for the four
vertical faces, `rowdivisions`/`columndivisions` for the bottom (5) and
top (6) faces. -/
structure FaceDataType where
  drape : Nat
  verticaldivisions1 : Nat
  horizontaldivisions1 : Nat
  verticaldivisions2 : Nat
  horizontaldivisions2 : Nat
  verticaldivisions3 : Nat
  horizontaldivisions3 : Nat
  verticaldivisions4 : Nat
  horizontaldivisions4 : Nat
  rowdivisions5 : Nat
  columndivisions5 : Nat
  rowdivisions6 : Nat
  columndivisions6 : Nat
deriving DecidableEq, Repr

/-- The release data the script builds: part A is an explicit list of
node ids and local coordinates with a drape flag (`ParticleData`); part
B is a node template carrying a `FaceDataType`
(`NodeParticleData`). -/
inductive PData where
  | explicitList (nodes : List Nat) (coords : List (ℚ × ℚ × ℚ)) (drape : Nat)
  | nodeTemplate (subdivisiondata : FaceDataType) (nodes : Nat)
deriving DecidableEq, Repr

/-- `get_particle_data(part)`: `nodew = ncpl * 2 + welcells[0]`; part
"A" replicates `nodew` once per coordinate triple with `drape=0`; part
"B" is a node template on `nodew` with 10 x 10 subdivisions on the four
vertical faces, none on the bottom face, 4 x 4 on the top face, and
`drape=0`. -/
def get_particle_data (ncpl wel0 : Nat) (part : String) : PData :=
  let nodew := ncpl * 2 + wel0
  if part = "A" then
    .explicitList (List.replicate pcoord.length nodew) pcoord 0
  else
    .nodeTemplate ⟨0, 10, 10, 10, 10, 10, 10, 10, 10, 0, 0, 4, 4⟩ nodew

/-- The node ids a release data set references. -/
def PData.nodeList : PData → List Nat
  | .explicitList nodes _ _ => nodes
  | .nodeTemplate _ n => [n]

/-- The drape flag of a release data set. -/
def PData.drapeFlag : PData → Nat
  | .explicitList _ _ d => d
  | .nodeTemplate s _ => s.drape

/-- The release points of part A: each replicated node id paired with
its coordinate triple, in order. -/
def releasePointsA (ncpl wel0 : Nat) : List (Nat × (ℚ × ℚ × ℚ)) :=
  match get_particle_data ncpl wel0 "A" with
  | .explicitList nodes coords _ => nodes.zip coords
  | .nodeTemplate _ n => [(n, (0, 0, 0))]

/-- C7: the explicit-list scheme with the 16 input triples produces
exactly 16 release points, whose coordinates are the input triples in
the same order and which all reference the single target cell id. -/
theorem explicit_scheme (ncpl wel0 : Nat) :
    pcoord.length = 16 ∧
    (releasePointsA ncpl wel0).length = 16 ∧
    (releasePointsA ncpl wel0).map Prod.snd = pcoord ∧
    ∀ pt ∈ releasePointsA ncpl wel0, pt.1 = ncpl * 2 + wel0 := by
  refine ⟨rfl, rfl, ?_, ?_⟩
  · rfl
  · intro pt hpt
    have hpt' : (pt.1, pt.2)
        ∈ (List.replicate pcoord.length (ncpl * 2 + wel0)).zip pcoord := by
      simpa [releasePointsA, get_particle_data] using hpt
    exact List.eq_of_mem_replicate (List.of_mem_zip hpt').1

/-- Witness for C7: the first release point of part A references the
target cell. -/
theorem explicit_scheme_witness :
    ((7 : Nat) * 2 + 3, ((0 : ℚ), (0.125 : ℚ), (0.5 : ℚ)))
        ∈ releasePointsA 7 3 ∧
      ((7 : Nat) * 2 + 3, ((0 : ℚ), (0.125 : ℚ), (0.5 : ℚ))).1 = 7 * 2 + 3 :=
  ⟨by simp [releasePointsA, get_particle_data, pcoord],
    (explicit_scheme 7 3).2.2.2 _
      (by simp [releasePointsA, get_particle_data, pcoord])⟩

/-- C10: both parts seed the same owning node, computed as
`ncpl * 2 + welcells[0]` — the well cell's copy in the third (bottom)
layer, since dividing the node id by the cells-per-layer count gives
layer index 2 (0-based) with the well cell id as remainder — and both
set the drape flag to 0. -/
theorem release_schemes_same_cell (ncpl wel0 : Nat) :
    (get_particle_data ncpl wel0 "A").nodeList
        = List.replicate 16 (ncpl * 2 + wel0) ∧
    (get_particle_data ncpl wel0 "B").nodeList = [ncpl * 2 + wel0] ∧
    (get_particle_data ncpl wel0 "A").drapeFlag = 0 ∧
    (get_particle_data ncpl wel0 "B").drapeFlag = 0 ∧
    (wel0 < ncpl →
      (ncpl * 2 + wel0) / ncpl = 2 ∧ (ncpl * 2 + wel0) % ncpl = wel0) := by
  refine ⟨rfl, rfl, rfl, rfl, fun hlt => ?_⟩
  have hpos : 0 < ncpl := lt_of_le_of_lt (Nat.zero_le wel0) hlt
  constructor
  · rw [Nat.add_comm, Nat.add_mul_div_left _ _ hpos,
      Nat.div_eq_of_lt hlt]
  · rw [Nat.add_comm, Nat.add_mul_mod_self_left, Nat.mod_eq_of_lt hlt]

/-- Witness for C10: the shared node and drape flags on a concrete
grid. -/
theorem release_schemes_same_cell_witness :
    (3 : Nat) < 7 ∧ ((7 : Nat) * 2 + 3) / 7 = 2 ∧ ((7 : Nat) * 2 + 3) % 7 = 3 :=
  ⟨by decide, (release_schemes_same_cell 7 3).2.2.2.2 (by decide)⟩

/-! ## Subdivided-face release-point generation

The expansion of a face-subdivision template into release points is
performed by the external flopy / MODPATH 7 machinery, not by this
repository, so it is modelled from the spec. -/

/-- Modelled from the spec: a face with an `m x n` subdivision yields
`m * n` release points at the centers of the subdivision cells — evenly
distributed across the face in local coordinates, each strictly inside
`(0,1)` — with the third local coordinate fixed at the face's own local
coordinate.  A face with zero subdivisions in either direction yields
no points. -/
def faceGrid (rows cols : Nat) (faceCoord : ℚ) : List (ℚ × ℚ × ℚ) :=
  (List.range rows).flatMap fun i =>
    (List.range cols).map fun j =>
      (((2 * j + 1 : ℕ) : ℚ) / (2 * cols),
        ((2 * i + 1 : ℕ) : ℚ) / (2 * rows), faceCoord)

/-- Modelled from the spec: a subdivided-face release scheme lists a
(rows, cols, fixed local coordinate) entry per cell face; generation
concatenates the faces' points in face order. -/
def generateTemplate (faces : List (Nat × Nat × ℚ)) : List (ℚ × ℚ × ℚ) :=
  faces.flatMap fun f => faceGrid f.1 f.2.1 f.2.2

/-- The C8 configuration: a 10 x 10 subdivision on the top face (fixed
local coordinate 1) and zero subdivisions on the other five faces. -/
def topOnlyConfig : List (Nat × Nat × ℚ) :=
  [(0, 0, 0), (0, 0, 0), (0, 0, 0), (0, 0, 0), (0, 0, 0), (10, 10, 1)]

theorem faceGrid_length (m n : Nat) (c : ℚ) :
    (faceGrid m n c).length = m * n := by
  simp [faceGrid, Function.comp_def, List.map_const', List.sum_replicate,
    smul_eq_mul]

theorem faceGrid_zero_rows (n : Nat) (c : ℚ) : faceGrid 0 n c = [] := rfl

theorem faceGrid_zero_cols (m : Nat) (c : ℚ) : faceGrid m 0 c = [] := by
  simp [faceGrid]

theorem mem_faceGrid (m n : Nat) (c : ℚ) (p : ℚ × ℚ × ℚ) :
    p ∈ faceGrid m n c ↔
      ∃ i < m, ∃ j < n,
        p = (((2 * j + 1 : ℕ) : ℚ) / (2 * n),
          ((2 * i + 1 : ℕ) : ℚ) / (2 * m), c) := by
  simp only [faceGrid, List.mem_flatMap, List.mem_map, List.mem_range]
  constructor
  · rintro ⟨i, hi, j, hj, rfl⟩
    exact ⟨i, hi, j, hj, rfl⟩
  · rintro ⟨i, hi, j, hj, rfl⟩
    exact ⟨i, hi, j, hj, rfl⟩

theorem generateTemplate_topOnly :
    generateTemplate topOnlyConfig = faceGrid 10 10 1 := by
  simp [generateTemplate, topOnlyConfig, faceGrid_zero_rows]

/-- C8: with 10 x 10 on one face and zero elsewhere, exactly 100
release points are generated, all of them the evenly spaced subdivision
centers `((2j+1)/20, (2i+1)/20)` strictly inside `(0,1)` with the third
coordinate fixed to the face's coordinate; zero-subdivision faces
contribute no points. -/
theorem subdivided_scheme :
    (generateTemplate topOnlyConfig).length = 100 ∧
    generateTemplate topOnlyConfig = faceGrid 10 10 1 ∧
    (∀ p ∈ generateTemplate topOnlyConfig,
      p.2.2 = 1 ∧ 0 < p.1 ∧ p.1 < 1 ∧ 0 < p.2.1 ∧ p.2.1 < 1 ∧
      ∃ i < 10, ∃ j < 10,
        p = (((2 * j + 1 : ℕ) : ℚ) / (2 * 10),
          ((2 * i + 1 : ℕ) : ℚ) / (2 * 10), 1)) ∧
    (∀ (m : Nat) (c : ℚ), faceGrid 0 m c = [] ∧ faceGrid m 0 c = []) := by
  refine ⟨by rw [generateTemplate_topOnly, faceGrid_length],
    generateTemplate_topOnly, ?_,
    fun m c => ⟨faceGrid_zero_rows m c, faceGrid_zero_cols m c⟩⟩
  intro p hp
  rw [generateTemplate_topOnly, mem_faceGrid] at hp
  obtain ⟨i, hi, j, hj, rfl⟩ := hp
  have h2j : ((2 * j + 1 : ℕ) : ℚ) < 2 * 10 := by
    have : (2 * j + 1 : ℕ) < 20 := by omega
    calc ((2 * j + 1 : ℕ) : ℚ) < ((20 : ℕ) : ℚ) := by exact_mod_cast this
      _ = 2 * 10 := by norm_num
  have h2i : ((2 * i + 1 : ℕ) : ℚ) < 2 * 10 := by
    have : (2 * i + 1 : ℕ) < 20 := by omega
    calc ((2 * i + 1 : ℕ) : ℚ) < ((20 : ℕ) : ℚ) := by exact_mod_cast this
      _ = 2 * 10 := by norm_num
  have hposj : (0 : ℚ) < ((2 * j + 1 : ℕ) : ℚ) := by positivity
  have hposi : (0 : ℚ) < ((2 * i + 1 : ℕ) : ℚ) := by positivity
  have hden : (0 : ℚ) < 2 * 10 := by norm_num
  have hcast : ((10 : ℕ) : ℚ) = 10 := by norm_num
  refine ⟨rfl, ?_, ?_, ?_, ?_, ⟨i, hi, j, hj, ?_⟩⟩
  · simpa [hcast] using div_pos hposj hden
  · simpa [hcast] using (div_lt_one hden).mpr h2j
  · simpa [hcast] using div_pos hposi hden
  · simpa [hcast] using (div_lt_one hden).mpr h2i
  · simp [hcast]

/-- Witness for C8: the first generated point of the top-face
configuration, strictly inside the unit square on the face's plane. -/
theorem subdivided_scheme_witness :
    (((1 : ℚ) / 20, (1 : ℚ) / 20, (1 : ℚ)) ∈ generateTemplate topOnlyConfig) ∧
      (0 : ℚ) < ((1 : ℚ) / 20, (1 : ℚ) / 20, (1 : ℚ)).1 ∧
      ((1 : ℚ) / 20, (1 : ℚ) / 20, (1 : ℚ)).2.2 = 1 := by
  have hp : ((1 : ℚ) / 20, (1 : ℚ) / 20, (1 : ℚ))
      ∈ generateTemplate topOnlyConfig := by
    rw [generateTemplate_topOnly, mem_faceGrid]
    refine ⟨0, by norm_num, 0, by norm_num, ?_⟩
    norm_num
  exact ⟨hp, (subdivided_scheme.2.2.1 _ hp).2.1, (subdivided_scheme.2.2.1 _ hp).1⟩

/-! ## Well-cell location (BoundaryLocator)

The script resolves the well point to cells with
`welcells = ix.intersects(MultiPoint(wel_coords))` followed by
`welcells = [icpl for (icpl,) in welcells]`.  The point/polygon
intersection test lives in the external flopy `GridIntersect`, so it is
modelled from the spec; the unpacking comprehension — which keeps every
returned cell id and has no uniqueness check or error path — is the
script's own code. -/

/-- An axis-aligned rectangular cell of the refined grid, by corner
coordinates. -/
structure Cell where
  xmin : ℚ
  ymin : ℚ
  xmax : ℚ
  ymax : ℚ
deriving DecidableEq, Repr

/-- Modelled from the spec: the point-in-cell test of the external
`GridIntersect` (flopy), boundary inclusive — a point on a cell's edge
intersects the cell. -/
def cellContains (c : Cell) (p : ℚ × ℚ) : Bool :=
  c.xmin ≤ p.1 && p.1 ≤ c.xmax && c.ymin ≤ p.2 && p.2 ≤ c.ymax

/-- Modelled from the spec: `ix.intersects(MultiPoint(wel_coords))` —
the ids, in grid order, of every cell the point intersects. -/
def intersectsPoint (cells : List Cell) (p : ℚ × ℚ) : List Nat :=
  (List.range cells.length).filter fun i =>
    match cells[i]? with
    | some c => cellContains c p
    | none => false

/-- `welcells = [icpl for (icpl,) in welcells]`: the script unpacks
each intersection tuple and keeps every returned cell id. -/
def welcellsOf (cells : List Cell) (p : ℚ × ℚ) : List Nat :=
  (intersectsPoint cells p).map fun icpl => icpl

/-- C6 counterexample: a well point exactly on the shared edge of two
cells yields both cells, silently — not a failure; and a point outside
the grid yields the empty assignment, also silently. -/
theorem welcells_boundary_counterexample :
    cellContains ⟨0, 0, 2, 2⟩ (2, 1) = true ∧
    cellContains ⟨2, 0, 4, 2⟩ (2, 1) = true ∧
    welcellsOf [⟨0, 0, 2, 2⟩, ⟨2, 0, 4, 2⟩] (2, 1) = [0, 1] ∧
    (welcellsOf [⟨0, 0, 2, 2⟩, ⟨2, 0, 4, 2⟩] (2, 1)).length = 2 ∧
    welcellsOf [⟨0, 0, 2, 2⟩] (5, 5) = [] := by
  decide

/-- C6 amended: for a point geometry the locator returns exactly the
cells whose polygon contains the point (boundary inclusive), in
increasing cell-id order, with no uniqueness check and no error path —
zero matches give the empty list and multiple matches are all kept. -/
theorem welcells_returns_all_matches (cells : List Cell) (p : ℚ × ℚ)
    (i : Nat) :
    (i ∈ welcellsOf cells p ↔
      ∃ h : i < cells.length, cellContains (cells.get ⟨i, h⟩) p = true) ∧
    (welcellsOf cells p).Pairwise (· < ·) := by
  have hw : welcellsOf cells p = intersectsPoint cells p := by
    simp [welcellsOf]
  constructor
  · rw [hw, intersectsPoint, List.mem_filter, List.mem_range]
    constructor
    · rintro ⟨hlt, hpred⟩
      refine ⟨hlt, ?_⟩
      rw [List.getElem?_eq_getElem hlt] at hpred
      simpa using hpred
    · rintro ⟨hlt, hc⟩
      refine ⟨hlt, ?_⟩
      rw [List.getElem?_eq_getElem hlt]
      simpa using hc
  · rw [hw, intersectsPoint]
    exact (List.pairwise_lt_range _).filter _

end Prt
